import Mathlib

/-!
Verification development for the directive-processing front end of the ANGLE
shading-language preprocessor (src/compiler/preprocessor/new/DirectiveParser.cpp).

The directive parser itself is embedded from the C++ source.  Its collaborators
(Token, SourceLocation, MacroSet, Tokenizer, MacroExpander, ExpressionParser,
Diagnostics) are declared in headers and translation units that are not part of
the sources; those are modelled from the specification, and each such
definition carries a doc comment saying so.

The tokenizer is modelled as an already-materialized list of tokens: `lex`
pops the head and yields an end-of-input token once the list is exhausted.
-/

set_option linter.unusedVariables false

namespace pp

/-- Modelled from the spec: a source location is a "file index + line number";
the default-constructed `SourceLocation()` has both components zero
(SourceLocation is declared in a header that is not part of the sources). -/
structure SourceLocation where
  file : Nat
  line : Nat
deriving DecidableEq, Repr

/-- The default-constructed location, as produced by `SourceLocation()` in
`token->location = SourceLocation();` (DirectiveParser.cpp line 187). -/
def SourceLocation.default : SourceLocation := ⟨0, 0⟩

/-- Modelled from the spec: the token tag distinguishes end-of-input,
end-of-line, identifier, literal, and punctuators (Token.h is not part of the
sources).  `LAST` is the name the source code uses for the end-of-input tag
(`pp::Token::LAST`, compared interchangeably with the numeric `0`);
`NEWLINE` is the tag the source compares against the character `'\n'`;
`PUNCT c` is a raw single-character punctuator such as `'#'`, `'('`, `','`,
`')'`. -/
inductive TokenType where
  | LAST
  | NEWLINE
  | IDENTIFIER
  | CONST_INT
  | PUNCT (c : Char)
  | OP (s : String)
deriving DecidableEq, Repr

/-- Modelled from the spec: a token is a tag, a text value, a source location,
and a boolean "had leading whitespace" flag (`hasLeadingSpace()`). -/
structure Token where
  type : TokenType
  value : String
  location : SourceLocation
  hasLeadingSpace : Bool
deriving DecidableEq, Repr

/-- The token the tokenizer yields once its input is exhausted: tag
end-of-input, empty text, default location. -/
def eofToken : Token := ⟨.LAST, "", SourceLocation.default, false⟩

/-- Resetting a token's location to the default, as done for every token
stored into a replacement list (DirectiveParser.cpp line 187). -/
def stripLoc (t : Token) : Token := { t with location := SourceLocation.default }

/-- Modelled from the spec: macro kind is object-like (`Macro::kTypeObj`) or
function-like (`Macro::kTypeFunc`). -/
inductive MacroType where
  | kTypeObj
  | kTypeFunc
deriving DecidableEq, Repr

/-- Modelled from the spec: a macro has a kind, a name, an ordered
parameter-name list (function-like only) and an ordered replacement-token
list (Macro is declared in a header that is not part of the sources). -/
structure Macro where
  type : MacroType
  name : String
  parameters : List String
  replacements : List Token
deriving DecidableEq, Repr

/-- Modelled from the spec: "Two macros are *equal* iff kind, parameter list,
and replacement tokens match exactly" (`Macro::equals`, whose source is not
part of the repository; used at DirectiveParser.cpp line 194). -/
def Macro.equals (a b : Macro) : Bool :=
  a.type == b.type && a.parameters == b.parameters && a.replacements == b.replacements

/-- Modelled from the spec: the macro table is a mapping from macro name to its
definition (`MacroSet`, a `std::map` owned by the caller). -/
abbrev MacroSet := List (String × Macro)

/-- Lookup by name (`mMacroSet->find`). -/
def MacroSet.find : MacroSet → String → Option Macro
  | [], _ => none
  | (k, m) :: rest, n => if k = n then some m else MacroSet.find rest n

/-- Modelled from the spec (std::map::insert semantics): inserting under an
existing key is a no-op; the prior entry is kept (DirectiveParser.cpp
line 201). -/
def MacroSet.insert (s : MacroSet) (n : String) (m : Macro) : MacroSet :=
  if (MacroSet.find s n).isSome then s else (n, m) :: s

/-- Removal of the entry for a name, if present (`mMacroSet->erase`,
DirectiveParser.cpp lines 217-219). -/
def MacroSet.erase : MacroSet → String → MacroSet
  | [], _ => []
  | (k, m) :: rest, n => if k = n then rest else (k, m) :: MacroSet.erase rest n

/-- Modelled from the spec: the enumerated diagnostic kinds reported through
the diagnostics sink (Diagnostics.h is not part of the sources). -/
inductive DiagnosticID where
  | UNEXPECTED_TOKEN_IN_DIRECTIVE
  | EOF_IN_DIRECTIVE
  | MACRO_NAME_RESERVED
  | MACRO_REDEFINED
  | CONDITIONAL_WITHOUT_IF
  | DIVISION_BY_ZERO
  | INVALID_EXPRESSION
  | USER_ERROR
deriving DecidableEq, Repr

/-- Modelled from the spec: a structured diagnostic event: kind, source
location, associated token text (`Diagnostics::report(kind, location, text)`). -/
structure Diagnostic where
  id : DiagnosticID
  location : SourceLocation
  text : String
deriving DecidableEq, Repr

/-- The state threaded through the directive parser: the remaining tokenizer
stream, the macro table, and the append-only diagnostics log. -/
structure PPState where
  tokens : List Token
  macros : MacroSet
  diags : List Diagnostic
deriving DecidableEq, Repr

/-- Modelled from the spec: one pull from the tokenizer (`mTokenizer->lex`):
the next materialized token, or the end-of-input token once the stream is
exhausted. -/
def tokenizerLex (st : PPState) : Token × PPState :=
  match st.tokens with
  | [] => (eofToken, st)
  | t :: ts => (t, { st with tokens := ts })

/-- Appending one diagnostic event (`mDiagnostics->report`). -/
def report (st : PPState) (id : DiagnosticID) (loc : SourceLocation) (text : String) :
    PPState :=
  { st with diags := st.diags ++ [⟨id, loc, text⟩] }

/-- Whether a character list contains two consecutive underscores
(`name.find("__") != std::string::npos`, DirectiveParser.cpp line 40). -/
def containsDoubleUnderscore : List Char → Bool
  | '_' :: '_' :: _ => true
  | _ :: rest => containsDoubleUnderscore rest
  | [] => false

/-- DirectiveParser.cpp lines 33-44: names prefixed with "GL_" and names
containing two consecutive underscores are reserved. -/
def isMacroNameReserved (name : String) : Bool :=
  name.take 3 == "GL_" || containsDoubleUnderscore name.toList

/-- DirectiveParser.cpp lines 49-63, `DefinedParser::lex`: the defined-operator
filter is an unimplemented pass-through stub ("TODO(alokp): Implement me."), so
one pull simply forwards one token from the underlying lexer. -/
def definedParserLex : List Token → Token × List Token
  | [] => (eofToken, [])
  | t :: ts => (t, ts)

/-- Modelled from the spec, for comparison with the source's pass-through stub
`DefinedParser::lex`: "Recognizes `defined IDENT` or `defined ( IDENT )` and
replaces the whole construct with a single integer token `1` or `0` based on
macro-table membership, without macro-expanding IDENT itself."  This definition
follows the spec's words; it is the target behavior, not the source's. -/
def specDefinedLex (ms : MacroSet) : List Token → Token × List Token
  | [] => (eofToken, [])
  | t :: rest =>
    if t.type = .IDENTIFIER ∧ t.value = "defined" then
      match rest with
      | [] => (t, rest)
      | i :: rest2 =>
        if i.type = .IDENTIFIER then
          (⟨.CONST_INT, if (MacroSet.find ms i.value).isSome then "1" else "0",
            t.location, t.hasLeadingSpace⟩, rest2)
        else if i.type = .PUNCT '(' then
          match rest2 with
          | j :: k :: rest3 =>
            if j.type = .IDENTIFIER ∧ k.type = .PUNCT ')' then
              (⟨.CONST_INT, if (MacroSet.find ms j.value).isSome then "1" else "0",
                t.location, t.hasLeadingSpace⟩, rest3)
            else (t, rest)
          | _ => (t, rest)
        else (t, rest)
    else (t, rest)

/-- Modelled from the spec: one pull from the macro expander
(`MacroExpander::lex`; MacroExpander.cpp is not part of the sources).  A
non-macro head token is forwarded and one token is consumed; an object-like
macro name is replaced by its replacement list, whose first token is returned
(the rest would sit in the expander's internal buffer, which the source
discards when the local expander object dies); an empty replacement makes the
expander pull again.  Function-like invocation and the rescan of replacement
tokens are not modelled: no claim in scope exercises them, and every input a
claim evaluates reaches this function with a non-macro head or not at all. -/
def meLexOne (ms : MacroSet) : List Token → Token × List Token
  | [] => (eofToken, [])
  | t :: rest =>
    match (if t.type = .IDENTIFIER then MacroSet.find ms t.value else none) with
    | some m =>
      match m.type, m.replacements with
      | .kTypeObj, [] => meLexOne ms rest
      | .kTypeObj, r :: _ => (r, rest)
      | .kTypeFunc, _ => (t, rest)
    | none => (t, rest)

/-- The parameter-collection loop of `#define` (DirectiveParser.cpp lines
164-171): `do { lex; if not IDENTIFIER break; push name; lex } while (',')`.
Returns the collected parameter names, the token the loop stopped on, and the
remaining stream. -/
def parseParams : List Token → List String × Token × List Token
  | [] => ([], eofToken, [])
  | t :: ts =>
    if t.type ≠ .IDENTIFIER then ([], t, ts)
    else
      match ts with
      | [] => ([t.value], eofToken, [])
      | t2 :: ts2 =>
        if t2.type = .PUNCT ',' then
          let r := parseParams ts2
          (t.value :: r.1, r.2.1, r.2.2)
        else ([t.value], t2, ts2)

/-- The replacement-collection loop of `#define` (DirectiveParser.cpp lines
182-190): starting from the current token, push location-stripped copies of
every token until end-of-line or end-of-input.  Returns the collected
replacement tokens, the terminating token, and the remaining stream. -/
def collectReplacements : Token → List Token → List Token × Token × List Token
  | t, [] =>
    if t.type = .NEWLINE ∨ t.type = .LAST then ([], t, [])
    else ([stripLoc t], eofToken, [])
  | t, t' :: ts' =>
    if t.type = .NEWLINE ∨ t.type = .LAST then ([], t, t' :: ts')
    else
      let r := collectReplacements t' ts'
      (stripLoc t :: r.1, r.2.1, r.2.2)

/-- The post-dispatch drain loop of `parseDirective` (DirectiveParser.cpp
lines 123-132): `while (token != newline) { if (token == eof) { report
EOF_IN_DIRECTIVE; break; } lex; }`. -/
def drainLine : Token → List Token → List Diagnostic →
    Token × List Token × List Diagnostic
  | t, [], ds =>
    if t.type = .NEWLINE then (t, [], ds)
    else if t.type = .LAST then
      (t, [], ds ++ [⟨.EOF_IN_DIRECTIVE, t.location, t.value⟩])
    else
      (eofToken, [], ds ++ [⟨.EOF_IN_DIRECTIVE, eofToken.location, eofToken.value⟩])
  | t, t' :: ts', ds =>
    if t.type = .NEWLINE then (t, t' :: ts', ds)
    else if t.type = .LAST then
      (t, t' :: ts', ds ++ [⟨.EOF_IN_DIRECTIVE, t.location, t.value⟩])
    else drainLine t' ts' ds

/-- The line-consumption behavior of the conditional-expression machinery
invoked by `#if` (the `DefinedParser` / `MacroExpander` /
`ExpressionParser.parse` chain; MacroExpander.cpp and ExpressionParser.cpp are
not part of the sources).  Modelled from the spec: the expression parser
consumes the rest of the line through the macro expander and stops on the line
terminator.  Returns the expression tokens, the terminating token, and the
stream after it. -/
def takeLine : List Token → List Token × Token × List Token
  | [] => ([], eofToken, [])
  | t :: rest =>
    if t.type = .NEWLINE ∨ t.type = .LAST then ([], t, rest)
    else
      let r := takeLine rest
      (t :: r.1, r.2.1, r.2.2)

/-- The redefinition check and insertion at the end of `#define`
(DirectiveParser.cpp lines 192-201): if an entry for the name exists and is
not structurally equal to the new definition, report MACRO_REDEFINED and keep
the original; otherwise insert (a no-op when an equal entry already exists). -/
def finishDefine (m : Macro) (t : Token) (st : PPState) : Token × PPState :=
  match MacroSet.find st.macros m.name with
  | some prior =>
    if ¬ (m.equals prior = true) then
      (t, report st .MACRO_REDEFINED t.location m.name)
    else
      (t, { st with macros := MacroSet.insert st.macros m.name m })
  | none => (t, { st with macros := MacroSet.insert st.macros m.name m })

/-- The scanning phase of `DirectiveParser::parseDefine` (DirectiveParser.cpp
lines 135-190): name check, reserved-name check, function-like detection and
parameter collection, replacement collection.  `.inl` carries the built macro
together with the pending token and state, ready for the redefinition check;
`.inr` is an early rejection (diagnostic already reported).  Note the faithful
reproduction of the source's behavior of entering the replacement loop with
the token the previous phase stopped on: in the function-like case that token
is the closing parenthesis, which therefore becomes the first collected
replacement token. -/
def parseDefineScan (st : PPState) : (Macro × Token × PPState) ⊕ (Token × PPState) :=
  let r0 := tokenizerLex st
  let tok := r0.1
  let st1 := r0.2
  if tok.type ≠ .IDENTIFIER then
    .inr (tok, report st1 .UNEXPECTED_TOKEN_IN_DIRECTIVE tok.location tok.value)
  else if isMacroNameReserved tok.value then
    .inr (tok, report st1 .MACRO_NAME_RESERVED tok.location tok.value)
  else
    let r1 := tokenizerLex st1
    let tok2 := r1.1
    let st2 := r1.2
    if tok2.type = .PUNCT '(' ∧ tok2.hasLeadingSpace = false then
      let pr := parseParams st2.tokens
      let tok3 := pr.2.1
      let st3 : PPState := { st2 with tokens := pr.2.2 }
      if tok3.type ≠ .PUNCT ')' then
        .inr (tok3, report st3 .UNEXPECTED_TOKEN_IN_DIRECTIVE tok3.location tok3.value)
      else
        let cr := collectReplacements tok3 st3.tokens
        .inl (⟨.kTypeFunc, tok.value, pr.1, cr.1⟩, cr.2.1, { st3 with tokens := cr.2.2 })
    else
      let cr := collectReplacements tok2 st2.tokens
      .inl (⟨.kTypeObj, tok.value, [], cr.1⟩, cr.2.1, { st2 with tokens := cr.2.2 })

/-- Mirrors `DirectiveParser::parseDefine` (DirectiveParser.cpp lines 135-202): the
scanning phase followed by the redefinition check and insertion. -/
def parseDefine (st : PPState) : Token × PPState :=
  match parseDefineScan st with
  | .inl (m, t, st') => finishDefine m t st'
  | .inr r => r

/-- Mirrors `DirectiveParser::parseUndef` (DirectiveParser.cpp lines 204-222):
identifier required (else UNEXPECTED_TOKEN_IN_DIRECTIVE); the entry is erased
if present; then one more token is pulled. -/
def parseUndef (st : PPState) : Token × PPState :=
  let r0 := tokenizerLex st
  let tok := r0.1
  let st1 := r0.2
  if tok.type ≠ .IDENTIFIER then
    (tok, report st1 .UNEXPECTED_TOKEN_IN_DIRECTIVE tok.location tok.value)
  else
    tokenizerLex { st1 with macros := MacroSet.erase st1.macros tok.value }

/-- Mirrors `DirectiveParser::parseIf` (DirectiveParser.cpp lines 224-243): the source
builds the DefinedParser / MacroExpander / ExpressionParser chain, parses the
constant expression from the rest of the line, and then DISCARDS the value:
"We have a valid #if directive. Handle it. TODO(alokp): Push conditional
block."  No conditional frame exists, no diagnostic is reported, and the only
observable effect is that the rest of the line has been consumed through the
expression machinery (`takeLine`). -/
def parseIf (st : PPState) : Token × PPState :=
  let r := takeLine st.tokens
  (r.2.1, { st with tokens := r.2.2 })

/-- Mirrors `DirectiveParser::parseIfdef` (DirectiveParser.cpp lines 245-250): an
unimplemented stub ("TODO(alokp): Implement me.") that pulls one token. -/
def parseIfdef (st : PPState) : Token × PPState := tokenizerLex st

/-- Mirrors `DirectiveParser::parseIfndef` (DirectiveParser.cpp lines 252-257): stub,
pulls one token. -/
def parseIfndef (st : PPState) : Token × PPState := tokenizerLex st

/-- Mirrors `DirectiveParser::parseElse` (DirectiveParser.cpp lines 259-264): stub,
pulls one token. -/
def parseElse (st : PPState) : Token × PPState := tokenizerLex st

/-- Mirrors `DirectiveParser::parseElif` (DirectiveParser.cpp lines 266-271): stub,
pulls one token. -/
def parseElif (st : PPState) : Token × PPState := tokenizerLex st

/-- Mirrors `DirectiveParser::parseEndif` (DirectiveParser.cpp lines 273-278): stub,
pulls one token; no conditional frame is popped. -/
def parseEndif (st : PPState) : Token × PPState := tokenizerLex st

/-- Mirrors `DirectiveParser::parseError` (DirectiveParser.cpp lines 280-285): stub,
pulls one token. -/
def parseError (st : PPState) : Token × PPState := tokenizerLex st

/-- Mirrors `DirectiveParser::parsePragma` (DirectiveParser.cpp lines 287-292): stub,
pulls one token. -/
def parsePragma (st : PPState) : Token × PPState := tokenizerLex st

/-- Mirrors `DirectiveParser::parseExtension` (DirectiveParser.cpp lines 294-299):
stub, pulls one token. -/
def parseExtension (st : PPState) : Token × PPState := tokenizerLex st

/-- Mirrors `DirectiveParser::parseVersion` (DirectiveParser.cpp lines 301-306): stub,
pulls one token. -/
def parseVersion (st : PPState) : Token × PPState := tokenizerLex st

/-- Mirrors `DirectiveParser::parseLine` (DirectiveParser.cpp lines 308-314): stub
that pulls one token through a locally-constructed macro expander and discards
the expander (and with it any buffered replacement tokens). -/
def parseLine (st : PPState) : Token × PPState :=
  let r := meLexOne st.macros st.tokens
  (r.1, { st with tokens := r.2 })

/-- The post-dispatch error recovery of `DirectiveParser::parseDirective`
(DirectiveParser.cpp lines 118-132): if the handler left a token that is
neither end-of-line nor end-of-input, report UNEXPECTED_TOKEN_IN_DIRECTIVE for
it; then drain the remaining tokens of the line, reporting EOF_IN_DIRECTIVE if
end-of-input arrives before end-of-line. -/
def postDirective (t : Token) (st : PPState) : Token × PPState :=
  let st1 :=
    if t.type ≠ .NEWLINE ∧ t.type ≠ .LAST then
      report st .UNEXPECTED_TOKEN_IN_DIRECTIVE t.location t.value
    else st
  let r := drainLine t st1.tokens st1.diags
  (r.1, { st1 with tokens := r.2.1, diags := r.2.2 })

/-- The dispatch step of `DirectiveParser::parseDirective` (DirectiveParser.cpp
lines 88-116): if the pulled token is an identifier naming one of the thirteen
directives, invoke its handler; unrecognized names and non-identifiers are not
dispatched (the token is left pending for the post-dispatch check). -/
def dispatchDirective (tok : Token) (st : PPState) : Token × PPState :=
  if tok.type = .IDENTIFIER then
    if tok.value = "define" then parseDefine st
    else if tok.value = "undef" then parseUndef st
    else if tok.value = "if" then parseIf st
    else if tok.value = "ifdef" then parseIfdef st
    else if tok.value = "ifndef" then parseIfndef st
    else if tok.value = "else" then parseElse st
    else if tok.value = "elif" then parseElif st
    else if tok.value = "endif" then parseEndif st
    else if tok.value = "error" then parseError st
    else if tok.value = "pragma" then parsePragma st
    else if tok.value = "extension" then parseExtension st
    else if tok.value = "version" then parseVersion st
    else if tok.value = "line" then parseLine st
    else (tok, st)
  else (tok, st)

/-- Mirrors `DirectiveParser::parseDirective` (DirectiveParser.cpp lines 83-133),
entered with the `#` token already consumed: pull the directive-name token,
dispatch on its identifier text, then run the post-dispatch check and line
drain. -/
def parseDirective (st : PPState) : Token × PPState :=
  let r0 := tokenizerLex st
  let r := dispatchDirective r0.1 r0.2
  postDirective r.1 r.2

/-- The fueled body of `DirectiveParser::lex` (DirectiveParser.cpp lines
74-81): `do { tokenizer lex; if the token is a hash, parseDirective } while
(the token is a newline)`.  The fuel only bounds the loop; every iteration
that continues consumes at least one token from the stream, so the wrapper's
fuel of one more than the stream length is never exhausted (`dpLexF_sound`). -/
def dpLexF : Nat → PPState → Token × PPState
  | 0, st => (eofToken, st)
  | fuel + 1, st =>
    let r0 := tokenizerLex st
    let r := if r0.1.type = .PUNCT '#' then parseDirective r0.2 else r0
    if r.1.type = .NEWLINE then dpLexF fuel r.2 else r

/-- Mirrors `DirectiveParser::lex` (DirectiveParser.cpp lines 74-81): one pull by the
caller; directive lines are fully processed and skipped. -/
def directiveLex (st : PPState) : Token × PPState :=
  dpLexF (st.tokens.length + 1) st

/-- The caller's driving loop over `DirectiveParser::lex`: collect returned
tokens until the end-of-input token arrives.  Models the output contract "a
token stream, with all directive lines removed".  Fueled like `dpLexF`. -/
def dpRunF : Nat → PPState → List Token × PPState
  | 0, st => ([], st)
  | fuel + 1, st =>
    let r := directiveLex st
    if r.1.type = .LAST then ([], r.2)
    else
      let q := dpRunF fuel r.2
      (r.1 :: q.1, q.2)

/-- The full preprocessor run: every token the directive parser hands to its
caller, in order, together with the final state. -/
def directiveRun (st : PPState) : List Token × PPState :=
  dpRunF (st.tokens.length + 1) st

/-- The diagnostic the post-dispatch check of `parseDirective` emits for a
pending token: one UNEXPECTED_TOKEN_IN_DIRECTIVE event unless the token is
end-of-line or end-of-input (DirectiveParser.cpp lines 118-121). -/
def unexpectedPart (t : Token) : List Diagnostic :=
  if t.type = .NEWLINE ∨ t.type = .LAST then []
  else [⟨.UNEXPECTED_TOKEN_IN_DIRECTIVE, t.location, t.value⟩]

/-- An identifier token at the default location, without leading whitespace. -/
def identTok (v : String) : Token := ⟨.IDENTIFIER, v, SourceLocation.default, false⟩

/-- An end-of-line token. -/
def nlTok : Token := ⟨.NEWLINE, "", SourceLocation.default, false⟩

/-- The hash token that starts a directive line. -/
def hashTok : Token := ⟨.PUNCT '#', "#", SourceLocation.default, false⟩

/-- An integer-literal token. -/
def intTok (v : String) : Token := ⟨.CONST_INT, v, SourceLocation.default, false⟩

/-- A multi-character punctuator token (such as `==`). -/
def opTok (s : String) : Token := ⟨.OP s, s, SourceLocation.default, false⟩

/-- A comma token. -/
def commaTok : Token := ⟨.PUNCT ',', ",", SourceLocation.default, false⟩

/-- An opening parenthesis with no leading whitespace (the function-like
macro marker). -/
def lparenTok : Token := ⟨.PUNCT '(', "(", SourceLocation.default, false⟩

/-- A closing parenthesis token. -/
def rparenTok : Token := ⟨.PUNCT ')', ")", SourceLocation.default, false⟩

/-- The token encoding of a comma-separated identifier parameter list (the
text between the parentheses of a function-like `#define`, excluding the
closing parenthesis). -/
def paramToks : List String → List Token
  | [] => []
  | [x] => [identTok x]
  | x :: y :: rest => identTok x :: commaTok :: paramToks (y :: rest)

/-- The location-independent content of a token: tag, text, and leading
whitespace flag — everything except the source location. -/
def tokenContent (t : Token) : TokenType × String × Bool :=
  (t.type, t.value, t.hasLeadingSpace)

/-- The macro-table invariant of the spec: every replacement token of every
stored macro carries the default (stripped) source location. -/
def macrosStripped (ms : MacroSet) : Prop :=
  ∀ p ∈ ms, ∀ x ∈ p.2.replacements, x.location = SourceLocation.default

lemma tokenizerLex_tokens_le (st : PPState) :
    (tokenizerLex st).2.tokens.length ≤ st.tokens.length := by
  rcases st with ⟨ts, ms, ds⟩
  cases ts <;> simp [tokenizerLex]

lemma parseParams_tokens_le : ∀ ts : List Token,
    (parseParams ts).2.2.length ≤ ts.length
  | [] => by simp [parseParams]
  | [t] => by
    by_cases h : t.type = .IDENTIFIER <;> simp [parseParams, h]
  | t :: t2 :: ts2 => by
    by_cases h : t.type = .IDENTIFIER
    · by_cases h2 : t2.type = .PUNCT ','
      · have ih := parseParams_tokens_le ts2
        simp [parseParams, h, h2]
        omega
      · simp [parseParams, h, h2]
        omega
    · simp [parseParams, h]

lemma collectReplacements_tokens_le : ∀ (t : Token) (ts : List Token),
    (collectReplacements t ts).2.2.length ≤ ts.length
  | t, [] => by
    by_cases h : t.type = .NEWLINE ∨ t.type = .LAST <;> simp [collectReplacements, h]
  | t, t' :: ts' => by
    by_cases h : t.type = .NEWLINE ∨ t.type = .LAST
    · simp [collectReplacements, h]
    · have ih := collectReplacements_tokens_le t' ts'
      simp [collectReplacements, h]
      omega

lemma collectReplacements_stripped : ∀ (t : Token) (ts : List Token),
    ∀ x ∈ (collectReplacements t ts).1, x.location = SourceLocation.default
  | t, [] => by
    by_cases h : t.type = .NEWLINE ∨ t.type = .LAST <;>
      simp [collectReplacements, h, stripLoc]
  | t, t' :: ts' => by
    by_cases h : t.type = .NEWLINE ∨ t.type = .LAST
    · simp [collectReplacements, h]
    · have ih := collectReplacements_stripped t' ts'
      simp only [collectReplacements, h, if_false, ite_false]
      intro x hx
      rcases List.mem_cons.mp hx with rfl | hx'
      · rfl
      · exact ih x hx'

lemma drainLine_tokens_le : ∀ (t : Token) (ts : List Token) (ds : List Diagnostic),
    (drainLine t ts ds).2.1.length ≤ ts.length
  | t, [], ds => by
    by_cases h1 : t.type = .NEWLINE <;> by_cases h2 : t.type = .LAST <;>
      simp [drainLine, h1, h2]
  | t, t' :: ts', ds => by
    by_cases h1 : t.type = .NEWLINE
    · simp [drainLine, h1]
    · by_cases h2 : t.type = .LAST
      · simp [drainLine, h1, h2]
      · have ih := drainLine_tokens_le t' ts' ds
        simp [drainLine, h1, h2]
        omega

lemma takeLine_tokens_le : ∀ ts : List Token, (takeLine ts).2.2.length ≤ ts.length
  | [] => by simp [takeLine]
  | t :: ts => by
    by_cases h : t.type = .NEWLINE ∨ t.type = .LAST
    · simp [takeLine, h]
    · have ih := takeLine_tokens_le ts
      simp [takeLine, h]
      omega

lemma meLexOne_tokens_le : ∀ (ms : MacroSet) (ts : List Token),
    (meLexOne ms ts).2.length ≤ ts.length
  | ms, [] => by simp [meLexOne]
  | ms, t :: ts => by
    have ih := meLexOne_tokens_le ms ts
    unfold meLexOne
    rcases hf : (if t.type = .IDENTIFIER then MacroSet.find ms t.value else none) with _ | m
    · simp [hf]
    · rcases m with ⟨mt, mn, mp, mr⟩
      cases mt <;> cases mr <;> (simp_all; try omega)

lemma finishDefine_tokens (m : Macro) (t : Token) (st : PPState) :
    (finishDefine m t st).2.tokens = st.tokens := by
  unfold finishDefine
  split
  · split_ifs <;> simp [report]
  · simp [report]

lemma finishDefine_macros (m : Macro) (t : Token) (st : PPState) :
    (finishDefine m t st).2.macros = st.macros ∨
    (finishDefine m t st).2.macros = MacroSet.insert st.macros m.name m := by
  unfold finishDefine
  split
  · split_ifs
    · right
      simp
    · left
      simp [report]
  · right
    simp

lemma parseDefineScan_inl (st : PPState) (m : Macro) (t : Token) (st' : PPState)
    (h : parseDefineScan st = .inl (m, t, st')) :
    st'.tokens.length ≤ st.tokens.length ∧ st'.macros = st.macros ∧
    st'.diags = st.diags ∧
    (∀ x ∈ m.replacements, x.location = SourceLocation.default) := by
  rcases st with ⟨ts, ms, ds⟩
  cases ts with
  | nil =>
    simp [parseDefineScan, tokenizerLex, eofToken, report] at h
  | cons a ts1 =>
    simp only [parseDefineScan, tokenizerLex] at h
    by_cases h1 : a.type = .IDENTIFIER
    · by_cases h2 : isMacroNameReserved a.value
      · simp [h1, h2, report] at h
      · simp only [h1, h2, ne_eq, not_true_eq_false, if_false, Bool.false_eq_true,
          ite_false, ite_true, not_false_eq_true, if_true] at h
        cases ts1 with
        | nil =>
          simp only [tokenizerLex] at h
          by_cases h3 : eofToken.type = TokenType.PUNCT '(' ∧ eofToken.hasLeadingSpace = false
          · simp [eofToken] at h3
          · simp only [h3, if_false, ite_false] at h
            simp only [Sum.inl.injEq, Prod.mk.injEq] at h
            obtain ⟨hm, -, hst⟩ := h
            subst hst
            subst hm
            simp [collectReplacements, eofToken]
        | cons b ts2 =>
          simp only [tokenizerLex] at h
          by_cases h3 : b.type = TokenType.PUNCT '(' ∧ b.hasLeadingSpace = false
          · simp only [h3, if_true, and_self, ite_true] at h
            by_cases h4 : (parseParams ts2).2.1.type = TokenType.PUNCT ')'
            · simp only [h4, ne_eq, not_true_eq_false, if_false, ite_false,
                not_false_eq_true, ite_true] at h
              simp only [Sum.inl.injEq, Prod.mk.injEq] at h
              obtain ⟨hm, -, hst⟩ := h
              subst hst
              subst hm
              refine ⟨?_, rfl, rfl, ?_⟩
              · simp only [List.length_cons]
                have hp := parseParams_tokens_le ts2
                have hc := collectReplacements_tokens_le (parseParams ts2).2.1 (parseParams ts2).2.2
                omega
              · exact collectReplacements_stripped (parseParams ts2).2.1 (parseParams ts2).2.2
            · simp [h4, report] at h
          · simp only [h3, if_false, ite_false] at h
            simp only [Sum.inl.injEq, Prod.mk.injEq] at h
            obtain ⟨hm, -, hst⟩ := h
            subst hst
            subst hm
            refine ⟨?_, rfl, rfl, ?_⟩
            · simp only [List.length_cons]
              have hc := collectReplacements_tokens_le b ts2
              omega
            · exact collectReplacements_stripped b ts2
    · simp [h1, report] at h

lemma parseDefineScan_inr (st : PPState) (t : Token) (st' : PPState)
    (h : parseDefineScan st = .inr (t, st')) :
    st'.tokens.length ≤ st.tokens.length ∧ st'.macros = st.macros := by
  rcases st with ⟨ts, ms, ds⟩
  cases ts with
  | nil =>
    simp only [parseDefineScan, tokenizerLex] at h
    simp only [eofToken, ne_eq, reduceCtorEq, not_false_eq_true, if_true, ite_true,
      Sum.inr.injEq, Prod.mk.injEq] at h
    obtain ⟨-, hst⟩ := h
    subst hst
    simp [report]
  | cons a ts1 =>
    simp only [parseDefineScan, tokenizerLex] at h
    by_cases h1 : a.type = .IDENTIFIER
    · by_cases h2 : isMacroNameReserved a.value
      · simp only [h1, h2, ne_eq, not_true_eq_false, if_false, ite_false, if_true,
          ite_true, Sum.inr.injEq, Prod.mk.injEq] at h
        obtain ⟨-, hst⟩ := h
        subst hst
        simp [report]
      · simp only [h1, h2, ne_eq, not_true_eq_false, if_false, Bool.false_eq_true,
          ite_false, ite_true, not_false_eq_true, if_true] at h
        cases ts1 with
        | nil =>
          simp only [tokenizerLex] at h
          by_cases h3 : eofToken.type = TokenType.PUNCT '(' ∧ eofToken.hasLeadingSpace = false
          · simp [eofToken] at h3
          · simp [h3] at h
        | cons b ts2 =>
          simp only [tokenizerLex] at h
          by_cases h3 : b.type = TokenType.PUNCT '(' ∧ b.hasLeadingSpace = false
          · simp only [h3, if_true, and_self, ite_true] at h
            by_cases h4 : (parseParams ts2).2.1.type = TokenType.PUNCT ')'
            · simp [h4] at h
            · simp only [h4, ne_eq, not_false_eq_true, if_true, ite_true,
                Sum.inr.injEq, Prod.mk.injEq] at h
              obtain ⟨-, hst⟩ := h
              subst hst
              refine ⟨?_, rfl⟩
              simp only [report, List.length_cons]
              have hp := parseParams_tokens_le ts2
              omega
          · simp [h3] at h
    · simp only [h1, ne_eq, not_false_eq_true, if_true, ite_true, Sum.inr.injEq,
        Prod.mk.injEq] at h
      obtain ⟨-, hst⟩ := h
      subst hst
      simp [report]

lemma parseDefine_tokens_le (st : PPState) :
    (parseDefine st).2.tokens.length ≤ st.tokens.length := by
  rcases hscan : parseDefineScan st with ⟨m, t, st'⟩ | ⟨t, st'⟩
  · have h := (parseDefineScan_inl st m t st' hscan).1
    simp only [parseDefine, hscan]
    rw [finishDefine_tokens]
    exact h
  · have h := (parseDefineScan_inr st t st' hscan).1
    simp only [parseDefine, hscan]
    exact h

lemma parseUndef_tokens_le (st : PPState) :
    (parseUndef st).2.tokens.length ≤ st.tokens.length := by
  rcases st with ⟨ts, ms, ds⟩
  cases ts with
  | nil => simp [parseUndef, tokenizerLex, eofToken, report]
  | cons t ts' =>
    by_cases h : t.type = .IDENTIFIER
    · cases ts' <;> (simp [parseUndef, tokenizerLex, h]; try omega)
    · simp [parseUndef, tokenizerLex, h, report]

lemma parseIf_tokens_le (st : PPState) :
    (parseIf st).2.tokens.length ≤ st.tokens.length := by
  simpa [parseIf] using takeLine_tokens_le st.tokens

lemma parseLine_tokens_le (st : PPState) :
    (parseLine st).2.tokens.length ≤ st.tokens.length := by
  simpa [parseLine] using meLexOne_tokens_le st.macros st.tokens

lemma postDirective_tokens_le (t : Token) (st : PPState) :
    (postDirective t st).2.tokens.length ≤ st.tokens.length := by
  simp only [postDirective]
  split_ifs with h <;> simpa [report] using drainLine_tokens_le t st.tokens _

set_option maxHeartbeats 1000000 in
lemma dispatchDirective_tokens_le (tok : Token) (st : PPState) :
    (dispatchDirective tok st).2.tokens.length ≤ st.tokens.length := by
  unfold dispatchDirective
  by_cases h0 : tok.type = .IDENTIFIER
  · rw [if_pos h0]
    by_cases h1 : tok.value = "define"
    · rw [if_pos h1]
      exact parseDefine_tokens_le st
    rw [if_neg h1]
    by_cases h2 : tok.value = "undef"
    · rw [if_pos h2]
      exact parseUndef_tokens_le st
    rw [if_neg h2]
    by_cases h3 : tok.value = "if"
    · rw [if_pos h3]
      exact parseIf_tokens_le st
    rw [if_neg h3]
    by_cases h4 : tok.value = "ifdef"
    · rw [if_pos h4]
      exact tokenizerLex_tokens_le st
    rw [if_neg h4]
    by_cases h5 : tok.value = "ifndef"
    · rw [if_pos h5]
      exact tokenizerLex_tokens_le st
    rw [if_neg h5]
    by_cases h6 : tok.value = "else"
    · rw [if_pos h6]
      exact tokenizerLex_tokens_le st
    rw [if_neg h6]
    by_cases h7 : tok.value = "elif"
    · rw [if_pos h7]
      exact tokenizerLex_tokens_le st
    rw [if_neg h7]
    by_cases h8 : tok.value = "endif"
    · rw [if_pos h8]
      exact tokenizerLex_tokens_le st
    rw [if_neg h8]
    by_cases h9 : tok.value = "error"
    · rw [if_pos h9]
      exact tokenizerLex_tokens_le st
    rw [if_neg h9]
    by_cases h10 : tok.value = "pragma"
    · rw [if_pos h10]
      exact tokenizerLex_tokens_le st
    rw [if_neg h10]
    by_cases h11 : tok.value = "extension"
    · rw [if_pos h11]
      exact tokenizerLex_tokens_le st
    rw [if_neg h11]
    by_cases h12 : tok.value = "version"
    · rw [if_pos h12]
      exact tokenizerLex_tokens_le st
    rw [if_neg h12]
    by_cases h13 : tok.value = "line"
    · rw [if_pos h13]
      exact parseLine_tokens_le st
    rw [if_neg h13]
  · rw [if_neg h0]

lemma parseDirective_eq (st : PPState) :
    parseDirective st =
      postDirective (dispatchDirective (tokenizerLex st).1 (tokenizerLex st).2).1
        (dispatchDirective (tokenizerLex st).1 (tokenizerLex st).2).2 := rfl

lemma parseDirective_tokens_le (st : PPState) :
    (parseDirective st).2.tokens.length ≤ st.tokens.length := by
  rw [parseDirective_eq]
  exact le_trans (postDirective_tokens_le _ _)
    (le_trans (dispatchDirective_tokens_le _ _) (tokenizerLex_tokens_le st))

lemma dpLexF_sound : ∀ (fuel : Nat) (st : PPState), st.tokens.length < fuel →
    (dpLexF fuel st).2.tokens.length ≤ st.tokens.length ∧
      ((dpLexF fuel st).1.type ≠ .LAST →
        (dpLexF fuel st).2.tokens.length < st.tokens.length)
  | 0, st, h => by omega
  | fuel + 1, st, h => by
    rcases st with ⟨ts, ms, ds⟩
    cases ts with
    | nil =>
      simp [dpLexF, tokenizerLex, eofToken]
    | cons t ts1 =>
      simp only [dpLexF, tokenizerLex]
      by_cases hh : t.type = .PUNCT '#'
      · rw [if_pos hh]
        have hd := parseDirective_tokens_le ⟨ts1, ms, ds⟩
        simp only at hd
        by_cases hn : (parseDirective ⟨ts1, ms, ds⟩).1.type = .NEWLINE
        · rw [if_pos hn]
          simp only [List.length_cons] at h
          have hlt : (parseDirective ⟨ts1, ms, ds⟩).2.tokens.length < fuel := by
            omega
          have ih := dpLexF_sound fuel (parseDirective ⟨ts1, ms, ds⟩).2 hlt
          have ih1 := ih.1
          constructor
          · simp only [List.length_cons]
            omega
          · intro hne
            simp only [List.length_cons]
            omega
        · rw [if_neg hn]
          constructor
          · simp only [List.length_cons]
            omega
          · intro hne
            simp only [List.length_cons]
            omega
      · rw [if_neg hh]
        dsimp only
        by_cases hn : t.type = .NEWLINE
        · rw [if_pos hn]
          simp only [List.length_cons] at h
          have ih := dpLexF_sound fuel ⟨ts1, ms, ds⟩ (show ts1.length < fuel by omega)
          have ih1 : (dpLexF fuel ⟨ts1, ms, ds⟩).2.tokens.length ≤ ts1.length := ih.1
          constructor
          · simp only [List.length_cons]
            omega
          · intro hne
            simp only [List.length_cons]
            omega
        · rw [if_neg hn]
          constructor
          · simp only [List.length_cons]
            omega
          · intro hne
            simp only [List.length_cons]
            omega

lemma drainLine_spec : ∀ (t : Token) (ts : List Token) (ds : List Diagnostic),
    (drainLine t ts ds).2.1 <:+ ts ∧
    (((drainLine t ts ds).1.type = .NEWLINE ∧ (drainLine t ts ds).2.2 = ds) ∨
     ((drainLine t ts ds).1.type = .LAST ∧ ∃ loc val,
        (drainLine t ts ds).2.2 = ds ++ [⟨.EOF_IN_DIRECTIVE, loc, val⟩]))
  | t, [], ds => by
    by_cases h1 : t.type = .NEWLINE
    · simp [drainLine, h1]
    · by_cases h2 : t.type = .LAST
      · refine ⟨by simp [drainLine, h1, h2], Or.inr ⟨by simp [drainLine, h1, h2], ?_⟩⟩
        exact ⟨t.location, t.value, by simp [drainLine, h1, h2]⟩
      · refine ⟨by simp [drainLine, h1, h2], Or.inr ⟨by simp [drainLine, h1, h2, eofToken], ?_⟩⟩
        exact ⟨eofToken.location, eofToken.value, by simp [drainLine, h1, h2]⟩
  | t, t' :: ts', ds => by
    by_cases h1 : t.type = .NEWLINE
    · simp [drainLine, h1]
    · by_cases h2 : t.type = .LAST
      · refine ⟨by simp [drainLine, h1, h2], Or.inr ⟨by simp [drainLine, h1, h2], ?_⟩⟩
        exact ⟨t.location, t.value, by simp [drainLine, h1, h2]⟩
      · have ih := drainLine_spec t' ts' ds
        have he : drainLine t (t' :: ts') ds = drainLine t' ts' ds := by
          simp [drainLine, h1, h2]
        rw [he]
        exact ⟨ih.1.trans (List.suffix_cons t' ts'), ih.2⟩

lemma postDirective_spec (t : Token) (st : PPState) :
    (postDirective t st).2.macros = st.macros ∧
    (postDirective t st).2.tokens <:+ st.tokens ∧
    (((postDirective t st).1.type = .NEWLINE ∧
        (postDirective t st).2.diags = st.diags ++ unexpectedPart t) ∨
     ((postDirective t st).1.type = .LAST ∧ ∃ loc val,
        (postDirective t st).2.diags =
          st.diags ++ unexpectedPart t ++ [⟨.EOF_IN_DIRECTIVE, loc, val⟩])) := by
  have hkey : ∀ ds1 : List Diagnostic,
      (drainLine t st.tokens ds1).2.1 <:+ st.tokens ∧
      (((drainLine t st.tokens ds1).1.type = .NEWLINE ∧
          (drainLine t st.tokens ds1).2.2 = ds1) ∨
       ((drainLine t st.tokens ds1).1.type = .LAST ∧ ∃ loc val,
          (drainLine t st.tokens ds1).2.2 = ds1 ++ [⟨.EOF_IN_DIRECTIVE, loc, val⟩])) :=
    fun ds1 => drainLine_spec t st.tokens ds1
  by_cases h : t.type ≠ .NEWLINE ∧ t.type ≠ .LAST
  · have hu : unexpectedPart t = [⟨.UNEXPECTED_TOKEN_IN_DIRECTIVE, t.location, t.value⟩] := by
      simp only [unexpectedPart]
      rw [if_neg]
      rcases h with ⟨ha, hb⟩
      simp [ha, hb]
    have he : postDirective t st =
        ((drainLine t st.tokens (st.diags ++ [⟨.UNEXPECTED_TOKEN_IN_DIRECTIVE, t.location, t.value⟩])).1,
         { tokens := (drainLine t st.tokens (st.diags ++ [⟨.UNEXPECTED_TOKEN_IN_DIRECTIVE, t.location, t.value⟩])).2.1,
           macros := st.macros,
           diags := (drainLine t st.tokens (st.diags ++ [⟨.UNEXPECTED_TOKEN_IN_DIRECTIVE, t.location, t.value⟩])).2.2 }) := by
      simp [postDirective, h, report]
    set ds1 := st.diags ++ [⟨.UNEXPECTED_TOKEN_IN_DIRECTIVE, t.location, t.value⟩] with hds1
    obtain ⟨hsuf, hcase⟩ := hkey ds1
    rw [he]
    refine ⟨rfl, hsuf, ?_⟩
    rcases hcase with ⟨hty, hdg⟩ | ⟨hty, loc, val, hdg⟩
    · exact Or.inl ⟨hty, by rw [hdg, hu]⟩
    · exact Or.inr ⟨hty, loc, val, by rw [hdg, hu, hds1, List.append_assoc]⟩
  · have hu : unexpectedPart t = [] := by
      simp only [unexpectedPart]
      rw [if_pos]
      tauto
    have he : postDirective t st =
        ((drainLine t st.tokens st.diags).1,
         { tokens := (drainLine t st.tokens st.diags).2.1,
           macros := st.macros,
           diags := (drainLine t st.tokens st.diags).2.2 }) := by
      simp [postDirective, h]
    obtain ⟨hsuf, hcase⟩ := hkey st.diags
    rw [he]
    refine ⟨rfl, hsuf, ?_⟩
    rcases hcase with ⟨hty, hdg⟩ | ⟨hty, loc, val, hdg⟩
    · exact Or.inl ⟨hty, by rw [hdg, hu, List.append_nil]⟩
    · exact Or.inr ⟨hty, loc, val, by rw [hdg, hu, List.append_nil]⟩

lemma parseDirective_type (st : PPState) :
    (parseDirective st).1.type = .NEWLINE ∨ (parseDirective st).1.type = .LAST := by
  rw [parseDirective_eq]
  have h := postDirective_spec (dispatchDirective (tokenizerLex st).1 (tokenizerLex st).2).1
    (dispatchDirective (tokenizerLex st).1 (tokenizerLex st).2).2
  rcases h.2.2 with ⟨h1, -⟩ | ⟨h1, -⟩
  · exact Or.inl h1
  · exact Or.inr h1

lemma dpLexF_type : ∀ (fuel : Nat) (st : PPState),
    (dpLexF fuel st).1.type ≠ .NEWLINE ∧ (dpLexF fuel st).1.type ≠ .PUNCT '#'
  | 0, st => by simp [dpLexF, eofToken]
  | fuel + 1, st => by
    rcases st with ⟨ts, ms, ds⟩
    cases ts with
    | nil => simp [dpLexF, tokenizerLex, eofToken]
    | cons t ts1 =>
      simp only [dpLexF, tokenizerLex]
      by_cases hh : t.type = .PUNCT '#'
      · rw [if_pos hh]
        by_cases hn : (parseDirective ⟨ts1, ms, ds⟩).1.type = .NEWLINE
        · rw [if_pos hn]
          exact dpLexF_type fuel _
        · rw [if_neg hn]
          rcases parseDirective_type ⟨ts1, ms, ds⟩ with h1 | h1
          · exact absurd h1 hn
          · constructor <;> simp [h1]
      · rw [if_neg hh]
        dsimp only
        by_cases hn : t.type = .NEWLINE
        · rw [if_pos hn]
          exact dpLexF_type fuel _
        · rw [if_neg hn]
          exact ⟨hn, hh⟩

/-- C7: for every call to the directive parser's lex operation, on every
underlying token stream and state, the token returned to the caller never has
the end-of-line tag and never the hash tag: a hash token triggers
`parseDirective`, which consumes the directive line through its end-of-line,
and the pull loop repeats on every end-of-line token, so the caller never
observes a bare end-of-line produced by a processed directive line. -/
theorem c7_lex_never_yields_newline_or_hash (st : PPState) :
    (directiveLex st).1.type ≠ TokenType.NEWLINE ∧
    (directiveLex st).1.type ≠ TokenType.PUNCT '#' :=
  dpLexF_type (st.tokens.length + 1) st

lemma parseDirective_cons (a : Token) (ts : List Token) (ms : MacroSet)
    (ds : List Diagnostic) :
    parseDirective ⟨a :: ts, ms, ds⟩ =
      postDirective (dispatchDirective a ⟨ts, ms, ds⟩).1
        (dispatchDirective a ⟨ts, ms, ds⟩).2 := rfl

lemma dispatchDirective_define (tok : Token) (st : PPState)
    (h1 : tok.type = .IDENTIFIER) (h2 : tok.value = "define") :
    dispatchDirective tok st = parseDefine st := by
  unfold dispatchDirective
  rw [if_pos h1, if_pos h2]

lemma parseDefine_reserved (name : Token) (rest : List Token) (ms : MacroSet)
    (ds : List Diagnostic) (h1 : name.type = .IDENTIFIER)
    (h2 : isMacroNameReserved name.value = true) :
    parseDefine ⟨name :: rest, ms, ds⟩ =
      (name, ⟨rest, ms, ds ++ [⟨.MACRO_NAME_RESERVED, name.location, name.value⟩]⟩) := by
  simp [parseDefine, parseDefineScan, tokenizerLex, h1, h2, report]

lemma parseDefine_badname (bad : Token) (rest : List Token) (ms : MacroSet)
    (ds : List Diagnostic) (h : bad.type ≠ .IDENTIFIER) :
    parseDefine ⟨bad :: rest, ms, ds⟩ =
      (bad, ⟨rest, ms,
        ds ++ [⟨.UNEXPECTED_TOKEN_IN_DIRECTIVE, bad.location, bad.value⟩]⟩) := by
  simp [parseDefine, parseDefineScan, tokenizerLex, h, report]

lemma drainLine_newline (t : Token) (ts : List Token) (ds : List Diagnostic)
    (h : t.type = .NEWLINE) : drainLine t ts ds = (t, ts, ds) := by
  cases ts <;> simp [drainLine, h]

lemma postDirective_newline (t : Token) (st : PPState) (h : t.type = .NEWLINE) :
    postDirective t st = (t, st) := by
  have hnot : ¬(t.type ≠ TokenType.NEWLINE ∧ t.type ≠ TokenType.LAST) := by simp [h]
  simp only [postDirective, if_neg hnot]
  rw [drainLine_newline t st.tokens st.diags h]

/-- C5: for every directive line, after the per-directive handler returns with
pending token `t`: an UNEXPECTED_TOKEN_IN_DIRECTIVE diagnostic is emitted
exactly when `t` is neither end-of-line nor end-of-input (`unexpectedPart`);
the remaining tokens of the line are then consumed (the resulting stream is a
suffix of the input and the final token is an end-of-line or end-of-input
token, so processing resumes on the next line or terminates); if end-of-input
is reached before end-of-line, an EOF_IN_DIRECTIVE diagnostic is emitted, and
only then.  The macro table is untouched. -/
theorem c5_post_dispatch_error_recovery (t : Token) (st : PPState) :
    (postDirective t st).2.macros = st.macros ∧
    (postDirective t st).2.tokens <:+ st.tokens ∧
    (((postDirective t st).1.type = TokenType.NEWLINE ∧
        (postDirective t st).2.diags = st.diags ++ unexpectedPart t) ∨
     ((postDirective t st).1.type = TokenType.LAST ∧ ∃ loc val,
        (postDirective t st).2.diags =
          st.diags ++ unexpectedPart t ++ [⟨.EOF_IN_DIRECTIVE, loc, val⟩])) :=
  postDirective_spec t st

/-- C1 (amended): for every macro name token with a reserved name (`GL_`
prefix or containing `__`), processing the directive line `#define N ...`
leaves the macro table unchanged (N is never inserted) and emits a
MACRO_NAME_RESERVED diagnostic for N, followed by an
UNEXPECTED_TOKEN_IN_DIRECTIVE diagnostic for the same still-pending name token
(from the post-dispatch check), and — only when the line is unterminated — a
trailing EOF_IN_DIRECTIVE diagnostic; this holds regardless of the replacement
tokens on the line. -/
theorem c1_amended (defTok name : Token) (rest : List Token) (ms : MacroSet)
    (ds : List Diagnostic)
    (hd1 : defTok.type = TokenType.IDENTIFIER) (hd2 : defTok.value = "define")
    (hn1 : name.type = TokenType.IDENTIFIER)
    (hn2 : isMacroNameReserved name.value = true) :
    (parseDirective ⟨defTok :: name :: rest, ms, ds⟩).2.macros = ms ∧
    ((parseDirective ⟨defTok :: name :: rest, ms, ds⟩).2.diags =
        ds ++ [⟨.MACRO_NAME_RESERVED, name.location, name.value⟩,
               ⟨.UNEXPECTED_TOKEN_IN_DIRECTIVE, name.location, name.value⟩] ∨
      ∃ loc val, (parseDirective ⟨defTok :: name :: rest, ms, ds⟩).2.diags =
        ds ++ [⟨.MACRO_NAME_RESERVED, name.location, name.value⟩,
               ⟨.UNEXPECTED_TOKEN_IN_DIRECTIVE, name.location, name.value⟩,
               ⟨.EOF_IN_DIRECTIVE, loc, val⟩]) := by
  have he : parseDirective ⟨defTok :: name :: rest, ms, ds⟩ =
      postDirective name
        ⟨rest, ms, ds ++ [⟨.MACRO_NAME_RESERVED, name.location, name.value⟩]⟩ := by
    rw [parseDirective_cons, dispatchDirective_define _ _ hd1 hd2,
      parseDefine_reserved name rest ms ds hn1 hn2]
  rw [he]
  obtain ⟨hmac, hsuf, hcase⟩ := postDirective_spec name
    ⟨rest, ms, ds ++ [⟨.MACRO_NAME_RESERVED, name.location, name.value⟩]⟩
  have hu : unexpectedPart name = [⟨.UNEXPECTED_TOKEN_IN_DIRECTIVE, name.location, name.value⟩] := by
    simp [unexpectedPart, hn1]
  refine ⟨hmac, ?_⟩
  rcases hcase with ⟨-, hdg⟩ | ⟨-, loc, val, hdg⟩
  · left
    rw [hdg, hu]
    simp
  · right
    refine ⟨loc, val, ?_⟩
    rw [hdg, hu]
    simp

/-- C1 (witness): the amended theorem applied to the directive line
`#define GL_X` with an end-of-line terminator. -/
theorem c1_amended_witness :
    isMacroNameReserved "GL_X" = true ∧
    (parseDirective ⟨[identTok "define", identTok "GL_X", nlTok], [], []⟩).2.macros = [] :=
  ⟨by decide,
   (c1_amended (identTok "define") (identTok "GL_X") [nlTok] [] [] rfl rfl rfl
     (by decide)).1⟩

/-- C1 (counterexample): processing the directive line `#define GL_FOO 1` does
NOT emit exactly one MACRO_NAME_RESERVED diagnostic: an additional
UNEXPECTED_TOKEN_IN_DIRECTIVE diagnostic for the pending name token follows
it.  The macro table is indeed left without an entry for GL_FOO. -/
theorem c1_counterexample :
    (directiveRun ⟨[hashTok, identTok "define", identTok "GL_FOO", intTok "1",
        nlTok], [], []⟩).2.diags.map (fun d => d.id) =
      [DiagnosticID.MACRO_NAME_RESERVED, DiagnosticID.UNEXPECTED_TOKEN_IN_DIRECTIVE] ∧
    MacroSet.find (directiveRun ⟨[hashTok, identTok "define", identTok "GL_FOO",
        intTok "1", nlTok], [], []⟩).2.macros "GL_FOO" = none ∧
    ¬ ((directiveRun ⟨[hashTok, identTok "define", identTok "GL_FOO", intTok "1",
        nlTok], [], []⟩).2.diags.map (fun d => d.id) =
      [DiagnosticID.MACRO_NAME_RESERVED]) := by
  decide

/-- C10 (amended): when `parseDefine` rejects a definition early at a
non-identifier name token, it returns with that offending token still pending;
the post-dispatch check emits an additional UNEXPECTED_TOKEN_IN_DIRECTIVE for
that same token exactly when the token is neither end-of-line nor
end-of-input; when the offending token is the end-of-line token, the rejection
diagnostic from `parseDefine` remains the only one (no additional diagnostic
is emitted).  In both cases no macro is inserted. -/
theorem c10_amended (defTok bad : Token) (rest : List Token) (ms : MacroSet)
    (ds : List Diagnostic)
    (hd1 : defTok.type = TokenType.IDENTIFIER) (hd2 : defTok.value = "define")
    (hb : bad.type ≠ TokenType.IDENTIFIER) :
    (bad.type ≠ TokenType.NEWLINE → bad.type ≠ TokenType.LAST →
      (parseDirective ⟨defTok :: bad :: rest, ms, ds⟩).2.macros = ms ∧
      ((parseDirective ⟨defTok :: bad :: rest, ms, ds⟩).2.diags =
          ds ++ [⟨.UNEXPECTED_TOKEN_IN_DIRECTIVE, bad.location, bad.value⟩,
                 ⟨.UNEXPECTED_TOKEN_IN_DIRECTIVE, bad.location, bad.value⟩] ∨
        ∃ loc val, (parseDirective ⟨defTok :: bad :: rest, ms, ds⟩).2.diags =
          ds ++ [⟨.UNEXPECTED_TOKEN_IN_DIRECTIVE, bad.location, bad.value⟩,
                 ⟨.UNEXPECTED_TOKEN_IN_DIRECTIVE, bad.location, bad.value⟩,
                 ⟨.EOF_IN_DIRECTIVE, loc, val⟩])) ∧
    (bad.type = TokenType.NEWLINE →
      parseDirective ⟨defTok :: bad :: rest, ms, ds⟩ =
        (bad, ⟨rest, ms,
          ds ++ [⟨.UNEXPECTED_TOKEN_IN_DIRECTIVE, bad.location, bad.value⟩]⟩)) := by
  have he : parseDirective ⟨defTok :: bad :: rest, ms, ds⟩ =
      postDirective bad
        ⟨rest, ms, ds ++ [⟨.UNEXPECTED_TOKEN_IN_DIRECTIVE, bad.location, bad.value⟩]⟩ := by
    rw [parseDirective_cons, dispatchDirective_define _ _ hd1 hd2,
      parseDefine_badname bad rest ms ds hb]
  constructor
  · intro hb1 hb2
    rw [he]
    obtain ⟨hmac, hsuf, hcase⟩ := postDirective_spec bad
      ⟨rest, ms, ds ++ [⟨.UNEXPECTED_TOKEN_IN_DIRECTIVE, bad.location, bad.value⟩]⟩
    have hu : unexpectedPart bad =
        [⟨.UNEXPECTED_TOKEN_IN_DIRECTIVE, bad.location, bad.value⟩] := by
      simp [unexpectedPart, hb1, hb2]
    refine ⟨hmac, ?_⟩
    rcases hcase with ⟨-, hdg⟩ | ⟨-, loc, val, hdg⟩
    · left
      rw [hdg, hu]
      simp
    · right
      refine ⟨loc, val, ?_⟩
      rw [hdg, hu]
      simp
  · intro hb1
    rw [he, postDirective_newline bad _ hb1]

/-- C10 (witness): the amended theorem applied to `#define 5` (whose name
token is the non-identifier integer literal 5) — two
UNEXPECTED_TOKEN_IN_DIRECTIVE diagnostics, no insertion. -/
theorem c10_amended_witness :
    (parseDirective ⟨[identTok "define", intTok "5", nlTok], [], []⟩).2.macros =
      ([] : MacroSet) :=
  ((c10_amended (identTok "define") (intTok "5") [nlTok] [] [] rfl rfl
    (by decide)).1 (by decide) (by decide)).1

/-- C10 (counterexample): on the directive line `#define` followed directly by
end-of-line, `parseDefine` rejects early (the offending pending token is the
end-of-line token itself), and the post-dispatch check emits NO additional
UNEXPECTED_TOKEN_IN_DIRECTIVE: the total diagnostic count is one, not two, so
early rejection does not always produce the additional diagnostic the claim
asserts. -/
theorem c10_counterexample :
    (directiveRun ⟨[hashTok, identTok "define", nlTok], [], []⟩).2.diags =
      [⟨DiagnosticID.UNEXPECTED_TOKEN_IN_DIRECTIVE, SourceLocation.default, ""⟩] ∧
    ¬ ((directiveRun ⟨[hashTok, identTok "define", nlTok], [], []⟩).2.diags.length = 2) := by
  decide

/-- C4: the defined-operator filter of the source (`DefinedParser::lex`) is an
unimplemented pass-through stub: on the expression token stream `defined FOO`
it forwards the identifier `defined` unchanged instead of replacing the
construct by a single integer token, diverging from the spec-modelled filter
(`specDefinedLex`), which on the same stream with an empty macro table yields
the single integer token 0. -/
theorem c4_defined_filter_is_passthrough_stub :
    definedParserLex [identTok "defined", identTok "FOO", nlTok] =
      (identTok "defined", [identTok "FOO", nlTok]) ∧
    specDefinedLex [] [identTok "defined", identTok "FOO", nlTok] =
      (⟨TokenType.CONST_INT, "0", SourceLocation.default, false⟩, [nlTok]) ∧
    (definedParserLex [identTok "defined", identTok "FOO", nlTok]).1.type =
      TokenType.IDENTIFIER ∧
    ¬ (definedParserLex [identTok "defined", identTok "FOO", nlTok] =
       specDefinedLex [] [identTok "defined", identTok "FOO", nlTok]) := by
  decide

/-- C3: conditional inclusion is unimplemented in the source (`parseIf`
discards the expression value — "TODO(alokp): Push conditional block" — and
`parseEndif` is a stub), so for the input `#if 0  NO  #endif` the output token
stream is the identifier NO rather than the empty stream the claim requires;
for `#if 1+1 == 2  YES  #endif` the output is YES as claimed (every branch
body is forwarded unconditionally). -/
theorem c3_conditional_suppression_unimplemented :
    directiveRun ⟨[hashTok, identTok "if", intTok "0", nlTok, identTok "NO",
        nlTok, hashTok, identTok "endif", nlTok], [], []⟩ =
      ([identTok "NO"], ⟨[], [], []⟩) ∧
    directiveRun ⟨[hashTok, identTok "if", intTok "1", opTok "+", intTok "1",
        opTok "==", intTok "2", nlTok, identTok "YES", nlTok, hashTok,
        identTok "endif", nlTok], [], []⟩ =
      ([identTok "YES"], ⟨[], [], []⟩) ∧
    ¬ ([identTok "NO"] = ([] : List Token)) := by
  decide

/-- C6 (counterexample): for the input `#define FOO` with no trailing
end-of-line token, the macro FOO IS inserted into the macro table (end-of-input
terminates the empty replacement list exactly like end-of-line would),
refuting the claim that no macro is inserted. -/
theorem c6_counterexample :
    MacroSet.find (directiveRun ⟨[hashTok, identTok "define", identTok "FOO"],
        [], []⟩).2.macros "FOO" =
      some ⟨MacroType.kTypeObj, "FOO", [], []⟩ ∧
    ¬ (MacroSet.find (directiveRun ⟨[hashTok, identTok "define", identTok "FOO"],
        [], []⟩).2.macros "FOO" = none) := by
  decide

/-- C6 (amended): for the input `#define FOO` with no trailing end-of-line
token, directive processing terminates, an EOF_IN_DIRECTIVE diagnostic is
emitted, and FOO is inserted into the macro table as an object-like macro with
no parameters and an empty replacement list. -/
theorem c6_amended_unterminated_define :
    directiveRun ⟨[hashTok, identTok "define", identTok "FOO"], [], []⟩ =
      ([], ⟨[], [("FOO", ⟨MacroType.kTypeObj, "FOO", [], []⟩)],
        [⟨DiagnosticID.EOF_IN_DIRECTIVE, SourceLocation.default, ""⟩]⟩) := by
  decide

lemma MacroSet.insert_found (s : MacroSet) (n : String) (m : Macro)
    (h : (MacroSet.find s n).isSome = true) : MacroSet.insert s n m = s := by
  simp [MacroSet.insert, h]

/-- C2: for every existing macro table entry `prior` for name A and every
subsequent `#define A ...` whose scanning phase successfully builds the new
definition `newM` (name identifier and not reserved, well-formed parameter
list): if `newM` is structurally equal to `prior` (same kind, parameter list,
and replacement tokens) the redefinition produces no diagnostic and the table
entry for A is unchanged (the insert at line 201 is a no-op on an existing
key); if it is unequal, a MACRO_REDEFINED diagnostic is emitted and the
original definition of A is retained. -/
theorem c2_redefinition_dichotomy (st : PPState) (A : String)
    (prior newM : Macro) (tEnd : Token) (stMid : PPState)
    (hfind : MacroSet.find st.macros A = some prior)
    (hname : newM.name = A)
    (hscan : parseDefineScan st = Sum.inl (newM, tEnd, stMid)) :
    (newM.equals prior = true →
      (parseDefine st).2.diags = st.diags ∧
      (parseDefine st).2.macros = st.macros ∧
      MacroSet.find (parseDefine st).2.macros A = some prior) ∧
    (newM.equals prior = false →
      (parseDefine st).2.diags = st.diags ++ [⟨.MACRO_REDEFINED, tEnd.location, A⟩] ∧
      (parseDefine st).2.macros = st.macros ∧
      MacroSet.find (parseDefine st).2.macros A = some prior) := by
  obtain ⟨-, hmac, hdg, -⟩ := parseDefineScan_inl st newM tEnd stMid hscan
  have hpd : parseDefine st = finishDefine newM tEnd stMid := by
    simp [parseDefine, hscan]
  have hfind2 : MacroSet.find stMid.macros newM.name = some prior := by
    rw [hmac, hname]
    exact hfind
  rw [hpd]
  constructor
  · intro heq
    simp only [finishDefine, hfind2]
    rw [if_neg (by simp [heq])]
    have hins : MacroSet.insert stMid.macros newM.name newM = stMid.macros := by
      apply MacroSet.insert_found
      rw [hfind2]
      rfl
    simp only [hins]
    refine ⟨hdg, hmac, ?_⟩
    rw [hmac, ← hname]
    rw [hname]
    exact hfind
  · intro hne
    simp only [finishDefine, hfind2]
    rw [if_pos (by simp [hne])]
    refine ⟨?_, hmac, ?_⟩
    · simp [report, hdg, hname]
    · simp only [report]
      rw [hmac]
      exact hfind

/-- C2 (witness): the dichotomy applied to the benign redefinition
`#define A 1` with A already defined as the object-like macro with replacement
token 1: no diagnostic, entry unchanged. -/
theorem c2_redefinition_witness :
    (parseDefine ⟨[identTok "A", intTok "1", nlTok],
        [("A", ⟨MacroType.kTypeObj, "A", [], [intTok "1"]⟩)], []⟩).2.diags = [] ∧
    MacroSet.find (parseDefine ⟨[identTok "A", intTok "1", nlTok],
        [("A", ⟨MacroType.kTypeObj, "A", [], [intTok "1"]⟩)], []⟩).2.macros "A" =
      some ⟨MacroType.kTypeObj, "A", [], [intTok "1"]⟩ := by
  have h := (c2_redefinition_dichotomy
    ⟨[identTok "A", intTok "1", nlTok],
      [("A", ⟨MacroType.kTypeObj, "A", [], [intTok "1"]⟩)], []⟩
    "A" ⟨MacroType.kTypeObj, "A", [], [intTok "1"]⟩
    ⟨MacroType.kTypeObj, "A", [], [intTok "1"]⟩ nlTok
    ⟨[], [("A", ⟨MacroType.kTypeObj, "A", [], [intTok "1"]⟩)], []⟩
    (by decide) rfl (by decide)).1 (by decide)
  exact ⟨h.1, h.2.2⟩

lemma parseParams_stop (t : Token) (ts : List Token) (h : t.type ≠ .IDENTIFIER) :
    parseParams (t :: ts) = ([], t, ts) := by
  cases ts <;> simp [parseParams, h]

lemma parseParams_single (t t2 : Token) (ts : List Token)
    (h1 : t.type = .IDENTIFIER) (h2 : t2.type ≠ .PUNCT ',') :
    parseParams (t :: t2 :: ts) = ([t.value], t2, ts) := by
  simp [parseParams, h1, h2]

lemma parseParams_comma (t t2 : Token) (ts : List Token)
    (h1 : t.type = .IDENTIFIER) (h2 : t2.type = .PUNCT ',') :
    parseParams (t :: t2 :: ts) =
      (t.value :: (parseParams ts).1, (parseParams ts).2.1, (parseParams ts).2.2) := by
  simp [parseParams, h1, h2]

lemma parseParams_wf : ∀ (ids : List String) (rest : List Token),
    parseParams (paramToks ids ++ rparenTok :: rest) = (ids, rparenTok, rest)
  | [], rest => by
    simp only [paramToks, List.nil_append]
    exact parseParams_stop rparenTok rest (by simp [rparenTok])
  | [x], rest => by
    simp only [paramToks, List.cons_append, List.nil_append]
    exact parseParams_single (identTok x) rparenTok rest rfl (by simp [rparenTok])
  | x :: y :: tl, rest => by
    have ih := parseParams_wf (y :: tl) rest
    simp only [paramToks, List.cons_append]
    rw [parseParams_comma (identTok x) commaTok _ rfl rfl, ih]
    rfl

lemma parseParams_trailing : ∀ (ids : List String) (rest : List Token), ids ≠ [] →
    parseParams (paramToks ids ++ commaTok :: rparenTok :: rest) = (ids, rparenTok, rest)
  | [], _, h => absurd rfl h
  | [x], rest, _ => by
    simp only [paramToks, List.cons_append, List.nil_append]
    rw [parseParams_comma (identTok x) commaTok _ rfl rfl,
      parseParams_stop rparenTok rest (by simp [rparenTok])]
    rfl
  | x :: y :: tl, rest, _ => by
    have ih := parseParams_trailing (y :: tl) rest (by simp)
    simp only [paramToks, List.cons_append]
    rw [parseParams_comma (identTok x) commaTok _ rfl rfl, ih]
    rfl

lemma collectReplacements_head (t : Token) (ts : List Token)
    (h : ¬(t.type = .NEWLINE ∨ t.type = .LAST)) :
    ∃ r, (collectReplacements t ts).1 = stripLoc t :: r := by
  cases ts <;> simp [collectReplacements, h]

lemma parseDefineScan_funclike (name lp : Token) (L : List Token) (ms : MacroSet)
    (ds : List Diagnostic)
    (h1 : name.type = .IDENTIFIER) (h2 : isMacroNameReserved name.value = false)
    (h3 : lp.type = .PUNCT '(') (h4 : lp.hasLeadingSpace = false)
    (h5 : (parseParams L).2.1.type = .PUNCT ')') :
    parseDefineScan ⟨name :: lp :: L, ms, ds⟩ =
      .inl (⟨.kTypeFunc, name.value, (parseParams L).1,
              (collectReplacements (parseParams L).2.1 (parseParams L).2.2).1⟩,
            (collectReplacements (parseParams L).2.1 (parseParams L).2.2).2.1,
            ⟨(collectReplacements (parseParams L).2.1 (parseParams L).2.2).2.2,
              ms, ds⟩) := by
  simp [parseDefineScan, tokenizerLex, h1, h2, h3, h4, h5]

lemma parseDefineScan_funclike_reject (name lp : Token) (L : List Token)
    (ms : MacroSet) (ds : List Diagnostic)
    (h1 : name.type = .IDENTIFIER) (h2 : isMacroNameReserved name.value = false)
    (h3 : lp.type = .PUNCT '(') (h4 : lp.hasLeadingSpace = false)
    (h5 : (parseParams L).2.1.type ≠ .PUNCT ')') :
    parseDefineScan ⟨name :: lp :: L, ms, ds⟩ =
      .inr ((parseParams L).2.1, ⟨(parseParams L).2.2, ms,
        ds ++ [⟨.UNEXPECTED_TOKEN_IN_DIRECTIVE, (parseParams L).2.1.location,
          (parseParams L).2.1.value⟩]⟩) := by
  simp [parseDefineScan, tokenizerLex, h1, h2, h3, h4, h5, report]

lemma parseDefineScan_objlike (name t2 : Token) (L : List Token) (ms : MacroSet)
    (ds : List Diagnostic)
    (h1 : name.type = .IDENTIFIER) (h2 : isMacroNameReserved name.value = false)
    (h3 : ¬(t2.type = .PUNCT '(' ∧ t2.hasLeadingSpace = false)) :
    parseDefineScan ⟨name :: t2 :: L, ms, ds⟩ =
      .inl (⟨.kTypeObj, name.value, [], (collectReplacements t2 L).1⟩,
            (collectReplacements t2 L).2.1,
            ⟨(collectReplacements t2 L).2.2, ms, ds⟩) := by
  simp [parseDefineScan, tokenizerLex, h1, h2, h3]

/-- C8 (amended): in `#define NAME ...` (name an unreserved identifier), the
definition is parsed as function-like exactly when the token immediately after
NAME is `(` with no leading whitespace.  In that case a comma-separated
identifier parameter list terminated by `)` is accepted with the identifiers
as the macro's parameters and no diagnostic — and so is, beyond the claim's
grammar, a list with one trailing comma before the `)`.  A list whose parse
stops at a token that is neither an identifier position continuing the list
nor the closing `)` (here: a first list token that is neither identifier nor
`)`) yields an UNEXPECTED_TOKEN_IN_DIRECTIVE diagnostic with the definition
dropped (no table insertion).  If the `(` has leading whitespace (or the next
token is anything else), the macro is object-like and that token begins the
replacement list (location-stripped). -/
theorem c8_amended (name lp : Token) (ms : MacroSet) (ds : List Diagnostic)
    (h1 : name.type = TokenType.IDENTIFIER)
    (h2 : isMacroNameReserved name.value = false)
    (h3 : lp.type = TokenType.PUNCT '(') (h4 : lp.hasLeadingSpace = false) :
    (∀ ids rest,
      parseDefineScan ⟨name :: lp :: (paramToks ids ++ rparenTok :: rest), ms, ds⟩ =
        .inl (⟨.kTypeFunc, name.value, ids, (collectReplacements rparenTok rest).1⟩,
              (collectReplacements rparenTok rest).2.1,
              ⟨(collectReplacements rparenTok rest).2.2, ms, ds⟩)) ∧
    (∀ ids rest, ids ≠ [] →
      parseDefineScan
          ⟨name :: lp :: (paramToks ids ++ commaTok :: rparenTok :: rest), ms, ds⟩ =
        .inl (⟨.kTypeFunc, name.value, ids, (collectReplacements rparenTok rest).1⟩,
              (collectReplacements rparenTok rest).2.1,
              ⟨(collectReplacements rparenTok rest).2.2, ms, ds⟩)) ∧
    (∀ (bad : Token) rest, bad.type ≠ TokenType.IDENTIFIER →
      bad.type ≠ TokenType.PUNCT ')' →
      parseDefine ⟨name :: lp :: bad :: rest, ms, ds⟩ =
        (bad, ⟨rest, ms,
          ds ++ [⟨.UNEXPECTED_TOKEN_IN_DIRECTIVE, bad.location, bad.value⟩]⟩)) ∧
    (∀ (t2 : Token) rest, ¬(t2.type = TokenType.PUNCT '(' ∧ t2.hasLeadingSpace = false) →
      parseDefineScan ⟨name :: t2 :: rest, ms, ds⟩ =
        .inl (⟨.kTypeObj, name.value, [], (collectReplacements t2 rest).1⟩,
              (collectReplacements t2 rest).2.1,
              ⟨(collectReplacements t2 rest).2.2, ms, ds⟩) ∧
      (¬(t2.type = TokenType.NEWLINE ∨ t2.type = TokenType.LAST) →
        ∃ r, (collectReplacements t2 rest).1 = stripLoc t2 :: r)) := by
  refine ⟨?_, ?_, ?_, ?_⟩
  · intro ids rest
    have hw := parseParams_wf ids rest
    have h5 : (parseParams (paramToks ids ++ rparenTok :: rest)).2.1.type =
        TokenType.PUNCT ')' := by
      rw [hw]
      rfl
    have := parseDefineScan_funclike name lp (paramToks ids ++ rparenTok :: rest)
      ms ds h1 h2 h3 h4 h5
    rw [this, hw]
  · intro ids rest hne
    have hw := parseParams_trailing ids rest hne
    have h5 : (parseParams (paramToks ids ++ commaTok :: rparenTok :: rest)).2.1.type =
        TokenType.PUNCT ')' := by
      rw [hw]
      rfl
    have := parseDefineScan_funclike name lp
      (paramToks ids ++ commaTok :: rparenTok :: rest) ms ds h1 h2 h3 h4 h5
    rw [this, hw]
  · intro bad rest hb1 hb2
    have hw : parseParams (bad :: rest) = ([], bad, rest) :=
      parseParams_stop bad rest hb1
    have h5 : (parseParams (bad :: rest)).2.1.type ≠ TokenType.PUNCT ')' := by
      rw [hw]
      exact hb2
    have hscan := parseDefineScan_funclike_reject name lp (bad :: rest) ms ds
      h1 h2 h3 h4 h5
    rw [hw] at hscan
    simp only [parseDefine, hscan]
  · intro t2 rest h5
    exact ⟨parseDefineScan_objlike name t2 rest ms ds h1 h2 h5,
      fun h6 => collectReplacements_head t2 rest h6⟩

/-- C8 (witness): the amended theorem applied to
`#define F(a, b) <end-of-line>`: parsed function-like with parameters a, b. -/
theorem c8_amended_witness :
    parseDefineScan ⟨identTok "F" :: lparenTok ::
        (paramToks ["a", "b"] ++ rparenTok :: [nlTok]), [], []⟩ =
      Sum.inl (⟨MacroType.kTypeFunc, "F", ["a", "b"],
          (collectReplacements rparenTok [nlTok]).1⟩,
        (collectReplacements rparenTok [nlTok]).2.1,
        ⟨(collectReplacements rparenTok [nlTok]).2.2, [], []⟩) :=
  (c8_amended (identTok "F") lparenTok [] [] rfl (by decide) rfl rfl).1 ["a", "b"] [nlTok]

/-- C8 (counterexample): the malformed parameter list `(a,)` — a trailing
comma, not a comma-separated identifier list terminated by `)` — is accepted
by `#define F(a,) x`: no diagnostic is emitted and F IS inserted (as a
function-like macro with parameter a, and with the `)` token itself collected
as the first replacement token), refuting "a malformed list yields an
UNEXPECTED_TOKEN_IN_DIRECTIVE diagnostic with the definition dropped". -/
theorem c8_counterexample :
    (directiveRun ⟨[hashTok, identTok "define", identTok "F", lparenTok,
        identTok "a", commaTok, rparenTok, identTok "x", nlTok], [], []⟩).2.diags = [] ∧
    MacroSet.find (directiveRun ⟨[hashTok, identTok "define", identTok "F",
        lparenTok, identTok "a", commaTok, rparenTok, identTok "x", nlTok],
        [], []⟩).2.macros "F" =
      some ⟨MacroType.kTypeFunc, "F", ["a"], [rparenTok, identTok "x"]⟩ ∧
    ¬ (MacroSet.find (directiveRun ⟨[hashTok, identTok "define", identTok "F",
        lparenTok, identTok "a", commaTok, rparenTok, identTok "x", nlTok],
        [], []⟩).2.macros "F" = none) := by
  decide

lemma macrosStripped_insert (ms : MacroSet) (n : String) (m : Macro)
    (h1 : macrosStripped ms)
    (h2 : ∀ x ∈ m.replacements, x.location = SourceLocation.default) :
    macrosStripped (MacroSet.insert ms n m) := by
  unfold MacroSet.insert
  split
  · exact h1
  · intro p hp
    rcases List.mem_cons.mp hp with rfl | hp'
    · exact h2
    · exact h1 p hp'

lemma MacroSet.mem_erase_sub : ∀ (s : MacroSet) (n : String) (p : String × Macro),
    p ∈ MacroSet.erase s n → p ∈ s
  | [], _, _, hp => by simp [MacroSet.erase] at hp
  | (k, m) :: rest, n, p, hp => by
    by_cases hk : k = n
    · simp only [MacroSet.erase, if_pos hk] at hp
      exact List.mem_cons_of_mem _ hp
    · simp only [MacroSet.erase, if_neg hk] at hp
      rcases List.mem_cons.mp hp with rfl | hp'
      · exact List.mem_cons_self _ _
      · exact List.mem_cons_of_mem _ (MacroSet.mem_erase_sub rest n p hp')

lemma macrosStripped_erase (ms : MacroSet) (n : String) (h : macrosStripped ms) :
    macrosStripped (MacroSet.erase ms n) :=
  fun p hp => h p (MacroSet.mem_erase_sub ms n p hp)

lemma finishDefine_stripped (m : Macro) (t : Token) (st : PPState)
    (h1 : macrosStripped st.macros)
    (h2 : ∀ x ∈ m.replacements, x.location = SourceLocation.default) :
    macrosStripped (finishDefine m t st).2.macros := by
  rcases finishDefine_macros m t st with he | he <;> rw [he]
  · exact h1
  · exact macrosStripped_insert st.macros m.name m h1 h2

lemma parseDefine_stripped (st : PPState) (h : macrosStripped st.macros) :
    macrosStripped (parseDefine st).2.macros := by
  rcases hscan : parseDefineScan st with ⟨m, t, st'⟩ | ⟨t, st'⟩
  · obtain ⟨-, hmac, -, hrep⟩ := parseDefineScan_inl st m t st' hscan
    have he : parseDefine st = finishDefine m t st' := by simp [parseDefine, hscan]
    rw [he]
    exact finishDefine_stripped m t st' (hmac ▸ h) hrep
  · obtain ⟨-, hmac⟩ := parseDefineScan_inr st t st' hscan
    have he : parseDefine st = (t, st') := by simp [parseDefine, hscan]
    rw [he]
    exact hmac ▸ h

lemma tokenizerLex_macros (st : PPState) : (tokenizerLex st).2.macros = st.macros := by
  rcases st with ⟨ts, ms, ds⟩
  cases ts <;> rfl

lemma parseUndef_stripped (st : PPState) (h : macrosStripped st.macros) :
    macrosStripped (parseUndef st).2.macros := by
  rcases st with ⟨ts, ms, ds⟩
  cases ts with
  | nil =>
    exact h
  | cons t ts' =>
    by_cases ht : t.type = .IDENTIFIER
    · have he : (parseUndef ⟨t :: ts', ms, ds⟩).2.macros = MacroSet.erase ms t.value := by
        simp only [parseUndef, tokenizerLex, ht]
        rw [if_neg (by simp [ht])]
        cases ts' <;> rfl
      rw [he]
      exact macrosStripped_erase ms t.value h
    · have he : (parseUndef ⟨t :: ts', ms, ds⟩).2.macros = ms := by
        simp only [parseUndef, tokenizerLex]
        rw [if_pos (by simp [ht])]
        rfl
      rw [he]
      exact h

lemma dispatchDirective_stripped (tok : Token) (st : PPState)
    (h : macrosStripped st.macros) :
    macrosStripped (dispatchDirective tok st).2.macros := by
  unfold dispatchDirective
  by_cases h0 : tok.type = .IDENTIFIER
  · rw [if_pos h0]
    by_cases h1 : tok.value = "define"
    · rw [if_pos h1]
      exact parseDefine_stripped st h
    rw [if_neg h1]
    by_cases h2 : tok.value = "undef"
    · rw [if_pos h2]
      exact parseUndef_stripped st h
    rw [if_neg h2]
    by_cases h3 : tok.value = "if"
    · rw [if_pos h3]
      exact h
    rw [if_neg h3]
    by_cases h4 : tok.value = "ifdef"
    · rw [if_pos h4]
      exact (tokenizerLex_macros st) ▸ h
    rw [if_neg h4]
    by_cases h5 : tok.value = "ifndef"
    · rw [if_pos h5]
      exact (tokenizerLex_macros st) ▸ h
    rw [if_neg h5]
    by_cases h6 : tok.value = "else"
    · rw [if_pos h6]
      exact (tokenizerLex_macros st) ▸ h
    rw [if_neg h6]
    by_cases h7 : tok.value = "elif"
    · rw [if_pos h7]
      exact (tokenizerLex_macros st) ▸ h
    rw [if_neg h7]
    by_cases h8 : tok.value = "endif"
    · rw [if_pos h8]
      exact (tokenizerLex_macros st) ▸ h
    rw [if_neg h8]
    by_cases h9 : tok.value = "error"
    · rw [if_pos h9]
      exact (tokenizerLex_macros st) ▸ h
    rw [if_neg h9]
    by_cases h10 : tok.value = "pragma"
    · rw [if_pos h10]
      exact (tokenizerLex_macros st) ▸ h
    rw [if_neg h10]
    by_cases h11 : tok.value = "extension"
    · rw [if_pos h11]
      exact (tokenizerLex_macros st) ▸ h
    rw [if_neg h11]
    by_cases h12 : tok.value = "version"
    · rw [if_pos h12]
      exact (tokenizerLex_macros st) ▸ h
    rw [if_neg h12]
    by_cases h13 : tok.value = "line"
    · rw [if_pos h13]
      exact h
    rw [if_neg h13]
    exact h
  · rw [if_neg h0]
    exact h

lemma parseDirective_stripped (st : PPState) (h : macrosStripped st.macros) :
    macrosStripped (parseDirective st).2.macros := by
  rw [parseDirective_eq]
  rw [(postDirective_spec _ _).1]
  exact dispatchDirective_stripped _ _ ((tokenizerLex_macros st) ▸ h)

lemma dpLexF_stripped : ∀ (fuel : Nat) (st : PPState),
    macrosStripped st.macros → macrosStripped (dpLexF fuel st).2.macros
  | 0, st, h => h
  | fuel + 1, st, h => by
    rcases st with ⟨ts, ms, ds⟩
    cases ts with
    | nil =>
      exact h
    | cons t ts1 =>
      simp only [dpLexF, tokenizerLex]
      by_cases hh : t.type = .PUNCT '#'
      · rw [if_pos hh]
        have hd := parseDirective_stripped ⟨ts1, ms, ds⟩ h
        by_cases hn : (parseDirective ⟨ts1, ms, ds⟩).1.type = .NEWLINE
        · rw [if_pos hn]
          exact dpLexF_stripped fuel _ hd
        · rw [if_neg hn]
          exact hd
      · rw [if_neg hh]
        dsimp only
        by_cases hn : t.type = .NEWLINE
        · rw [if_pos hn]
          exact dpLexF_stripped fuel ⟨ts1, ms, ds⟩ h
        · rw [if_neg hn]
          exact h

lemma dpRunF_stripped : ∀ (fuel : Nat) (st : PPState),
    macrosStripped st.macros → macrosStripped (dpRunF fuel st).2.macros
  | 0, st, h => h
  | fuel + 1, st, h => by
    simp only [dpRunF]
    have hl := dpLexF_stripped (st.tokens.length + 1) st h
    by_cases he : (directiveLex st).1.type = .LAST
    · rw [if_pos he]
      exact hl
    · rw [if_neg he]
      exact dpRunF_stripped fuel (directiveLex st).2 hl

lemma token_eq_of_content (a b : Token)
    (ha : a.location = SourceLocation.default) (hb : b.location = SourceLocation.default)
    (h : tokenContent a = tokenContent b) : a = b := by
  rcases a with ⟨t1, v1, l1, s1⟩
  rcases b with ⟨t2, v2, l2, s2⟩
  simp only [tokenContent, Prod.mk.injEq] at h
  simp only at ha hb
  obtain ⟨h1, h2, h3⟩ := h
  subst h1
  subst h2
  subst h3
  rw [ha, hb]

lemma strippedList_eq_iff : ∀ (l1 l2 : List Token),
    (∀ x ∈ l1, x.location = SourceLocation.default) →
    (∀ x ∈ l2, x.location = SourceLocation.default) →
    (l1 = l2 ↔ l1.map tokenContent = l2.map tokenContent)
  | [], [], _, _ => by simp
  | [], b :: l2, _, _ => by simp
  | a :: l1, [], _, _ => by simp
  | a :: l1, b :: l2, h1, h2 => by
    have ih := strippedList_eq_iff l1 l2
      (fun x hx => h1 x (List.mem_cons_of_mem a hx))
      (fun x hx => h2 x (List.mem_cons_of_mem b hx))
    simp only [List.map_cons, List.cons.injEq]
    constructor
    · rintro ⟨rfl, rfl⟩
      exact ⟨rfl, rfl⟩
    · rintro ⟨hc, hl⟩
      refine ⟨?_, (ih.mpr hl)⟩
      exact token_eq_of_content a b (h1 a (List.mem_cons_self a l1))
        (h2 b (List.mem_cons_self b l2)) hc

/-- C9: (a) every macro stored in the macro table by a full preprocessor run
has location-free replacement tokens — locations are stripped at collection
time, so a table that starts stripped (e.g. empty or pre-seeded with
location-free built-ins) stays stripped; (b) on location-free replacement
lists, the structural equality `Macro.equals` used by the redefinition check
depends only on kind, parameter list, and the replacement tokens' content
(tag, text, leading-whitespace flag) — never on source locations. -/
theorem c9_locations_stripped_and_structural_equality :
    (∀ st : PPState, macrosStripped st.macros →
        macrosStripped (directiveRun st).2.macros) ∧
    (∀ m1 m2 : Macro,
        (∀ x ∈ m1.replacements, x.location = SourceLocation.default) →
        (∀ x ∈ m2.replacements, x.location = SourceLocation.default) →
        (Macro.equals m1 m2 = true ↔
          (m1.type = m2.type ∧ m1.parameters = m2.parameters ∧
           m1.replacements.map tokenContent = m2.replacements.map tokenContent))) := by
  constructor
  · intro st h
    exact dpRunF_stripped (st.tokens.length + 1) st h
  · intro m1 m2 h1 h2
    unfold Macro.equals
    simp only [Bool.and_eq_true, beq_iff_eq]
    rw [strippedList_eq_iff m1.replacements m2.replacements h1 h2]
    tauto

/-- C9 (witness): the invariant applied to a full run of `#define B 1` from
the empty table, and the equality characterization applied to two copies of
the resulting macro for B. -/
theorem c9_witness :
    macrosStripped (directiveRun ⟨[hashTok, identTok "define", identTok "B",
        intTok "1", nlTok], [], []⟩).2.macros ∧
    (Macro.equals ⟨MacroType.kTypeObj, "B", [], [intTok "1"]⟩
        ⟨MacroType.kTypeObj, "B", [], [intTok "1"]⟩ = true ↔
      ((MacroType.kTypeObj : MacroType) = MacroType.kTypeObj ∧
       ([] : List String) = [] ∧
       [intTok "1"].map tokenContent = [intTok "1"].map tokenContent)) :=
  ⟨c9_locations_stripped_and_structural_equality.1
      ⟨[hashTok, identTok "define", identTok "B", intTok "1", nlTok], [], []⟩
      (fun p hp => absurd hp (List.not_mem_nil p)),
   c9_locations_stripped_and_structural_equality.2
      ⟨MacroType.kTypeObj, "B", [], [intTok "1"]⟩
      ⟨MacroType.kTypeObj, "B", [], [intTok "1"]⟩
      (by decide) (by decide)⟩

end pp
